import Mathlib

/-!
Shallow embedding of `url-composer` (src/index.js) in Lean 4.

Strings are modelled as `List Char` internally, with `String` wrappers at the
public API.  The JavaScript regular-expression operations used by the source
are translated into explicit character scanners with the exact semantics of
the corresponding regex literals:

* `OPTIONAL_PARAMS = /\((.*?)\)/g` : a match is a `(`, followed by the shortest
  run of characters containing no `)` and no line terminator, followed by `)`.
* `SPLAT_PARAMS = /\*\w+/g` : `*` followed by a maximal nonempty run of word
  characters.
* `NAMED_PARAM(S) = /(\(\?)?:\w+/` : an optional literal `(?` prefix, then `:`
  followed by a maximal nonempty run of word characters.

JavaScript `RegExp.prototype.test` on a regex built with the `g` flag reads
and writes the regex object's `lastIndex` property.  The module-level regex
constants therefore carry hidden mutable state; it is modelled by threading an
explicit `lastIndex : Nat` through the functions that call `test` on a global
regex (`isNamedOrSplatParam`, hence `replaceArgs`, `parse`, `build`).
`String.prototype.match` and `String.prototype.replace` reset `lastIndex`
to 0 before and after use, so they are modelled statelessly.
-/

namespace UrlComposer

/-- Word character of the JavaScript regex class `\w` = `[A-Za-z0-9_]`. -/
def wc (c : Char) : Bool :=
  (('A' ≤ c && c ≤ 'Z') || ('a' ≤ c && c ≤ 'z') || ('0' ≤ c && c ≤ '9') || c = '_')

/-- Line terminators that the JavaScript `.` (without the `s` flag) does not match. -/
def isDotNl (c : Char) : Bool :=
  c = '\n' || c = '\r' || c.toNat = 0x2028 || c.toNat = 0x2029

/-- Whitespace characters of the JavaScript regex class `\s`. -/
def isJsWs (c : Char) : Bool :=
  let n := c.toNat
  n = 0x9 || n = 0xA || n = 0xB || n = 0xC || n = 0xD || n = 0x20 || n = 0xA0 ||
  n = 0x1680 || (0x2000 ≤ n && n ≤ 0x200A) || n = 0x2028 || n = 0x2029 ||
  n = 0x202F || n = 0x205F || n = 0x3000 || n = 0xFEFF

/-- Argument sets accepted by the injector: JS `null`/`undefined`, an array of
values, or a plain object (association list of own enumerable properties,
keys unique, in insertion order). -/
inductive Args where
  | null : Args
  | arr : List String → Args
  | obj : List (String × String) → Args
deriving DecidableEq

/-- Translation of `isEmpty` (src/index.js line 75): `null` is empty, an array is
empty iff its length is 0, an object is empty iff it has no own enumerable key. -/
def jsIsEmpty : Args → Bool
  | .null => true
  | .arr vs => vs.isEmpty
  | .obj kvs => kvs.isEmpty

theorem length_dropWhile_le (p : Char → Bool) :
    ∀ l : List Char, (l.dropWhile p).length ≤ l.length := by
  intro l
  induction l with
  | nil => simp [List.dropWhile]
  | cons c r ih =>
    simp only [List.dropWhile]
    by_cases h : p c
    · simp [h]; omega
    · simp [h]

/-- First-match substring search: does the second list start with the first? -/
def startsWithL : List Char → List Char → Bool
  | [], _ => true
  | _ :: _, [] => false
  | c :: p, d :: s => c = d && startsWithL p s

/-- Substring containment, the model of JavaScript `hay.indexOf(needle) !== -1`. -/
def containsSub (needle : List Char) : List Char → Bool
  | [] => needle.isEmpty
  | c :: r => startsWithL needle (c :: r) || containsSub needle r

/-- Translation of JavaScript `s.replace(pat, rep)` where `pat` is a plain string:
only the first occurrence is replaced; if there is none the string is unchanged. -/
def replaceFirstSub (s pat rep : List Char) : List Char :=
  match s with
  | [] => if pat.isEmpty then rep else []
  | c :: r =>
    if startsWithL pat (c :: r) then rep ++ (c :: r).drop pat.length
    else c :: replaceFirstSub r pat rep

/-!  Optional-group scanning (`OPTIONAL_PARAMS = /\((.*?)\)/g`). -/

/-- Attempt of the non-greedy tail `(.*?)\)` of `OPTIONAL_PARAMS` after an opening
parenthesis: return the interior (shortest, no `)` and no line terminator) and
the remainder after the closing parenthesis. -/
def takeToClose : List Char → Option (List Char × List Char)
  | [] => none
  | c :: r =>
    if c = ')' then some ([], r)
    else if isDotNl c then none
    else match takeToClose r with
      | some (i, rest) => some (c :: i, rest)
      | none => none

theorem takeToClose_length : ∀ {r i rest : List Char},
    takeToClose r = some (i, rest) → rest.length < r.length := by
  intro r
  induction r with
  | nil => intro i rest h; simp [takeToClose] at h
  | cons c r ih =>
    intro i rest h
    simp only [takeToClose] at h
    by_cases hc : c = ')'
    · simp [hc] at h
      simp [← h.2]
    · by_cases hn : isDotNl c
      · simp [hc, hn] at h
      · simp only [hc, hn, if_false, if_neg, ite_false] at h
        cases htc : takeToClose r with
        | none => rw [htc] at h; simp at h
        | some p =>
          rw [htc] at h
          cases p with
          | mk i' rest' =>
            simp at h
            have := ih htc
            simp [← h.2]
            omega

/-- Fuel-indexed worker of `removeOpt`.  Every recursive call strictly
shrinks the string, so any fuel above the length is enough. -/
def removeOptF : Nat → List Char → List Char
  | 0, _ => []
  | _ + 1, [] => []
  | fuel + 1, c :: r =>
    if c = '(' then
      match takeToClose r with
      | some (_, rest) => removeOptF fuel rest
      | none => c :: removeOptF fuel r
    else c :: removeOptF fuel r

/-- Translation of `removeOptionalParams` (line 194):
`path.replace(OPTIONAL_PARAMS, '')`. -/
def removeOpt (s : List Char) : List Char := removeOptF (s.length + 1) s

theorem removeOptF_congr : ∀ (n : Nat) (s : List Char) (m : Nat),
    s.length < n → s.length < m → removeOptF n s = removeOptF m s := by
  intro n
  induction n with
  | zero => intro s m h _; omega
  | succ n ih =>
    intro s m hn hm
    match s, m with
    | _, 0 => omega
    | [], m + 1 => rfl
    | c :: r, m + 1 =>
      simp only [removeOptF]
      simp at hn hm
      by_cases hc : c = '('
      · rw [if_pos hc, if_pos hc]
        cases htc : takeToClose r with
        | some p =>
          obtain ⟨i, rest⟩ := p
          have := takeToClose_length htc
          exact ih rest m (by omega) (by omega)
        | none => rw [ih r m (by omega) (by omega)]
      · rw [if_neg hc, if_neg hc, ih r m (by omega) (by omega)]

/-- Fuel-indexed worker of `optMatchList`. -/
def optMatchListF : Nat → List Char → List (List Char)
  | 0, _ => []
  | _ + 1, [] => []
  | fuel + 1, c :: r =>
    if c = '(' then
      match takeToClose r with
      | some (i, rest) => ('(' :: i ++ [')']) :: optMatchListF fuel rest
      | none => optMatchListF fuel r
    else optMatchListF fuel r

/-- List of matches of `path.match(OPTIONAL_PARAMS)` (full matches, including
the parentheses), in order of occurrence. -/
def optMatchList (s : List Char) : List (List Char) := optMatchListF (s.length + 1) s

/-- Existence of an `OPTIONAL_PARAMS` match, the model of
`OPTIONAL_PARAMS.test(path)` when `lastIndex` is 0. -/
def hasMatch : List Char → Bool
  | [] => false
  | c :: r => (c = '(' && (takeToClose r).isSome) || hasMatch r

/-- Fuel-indexed worker of `repOptG`. -/
def repOptGF : Nat → List Char → List Char
  | 0, _ => []
  | _ + 1, [] => []
  | fuel + 1, c :: r =>
    if c = '(' then
      match takeToClose r with
      | some (i, rest) => '(' :: '?' :: ':' :: (i ++ ')' :: '?' :: repOptGF fuel rest)
      | none => c :: repOptGF fuel r
    else c :: repOptGF fuel r

/-- Step 2 of `routeToRegex` (line 312):
`route.replace(OPTIONAL_PARAMS, '(?:$1)?')`. -/
def repOptG (s : List Char) : List Char := repOptGF (s.length + 1) s

/-!  Named-parameter scanning (`NAMED_PARAM(S) = /(\(\?)?:\w+/`). -/

/-- Match attempt of `NAMED_PARAM` at the start of the string: either the
literal prefix `(?` then `:` then word characters, or `:` then word
characters (the word run is greedy).  Returns the match and the remainder. -/
def namedHere : List Char → Option (List Char × List Char)
  | '(' :: '?' :: ':' :: c :: r =>
    if wc c then some ('(' :: '?' :: ':' :: c :: r.takeWhile wc, r.dropWhile wc)
    else none
  | ':' :: c :: r =>
    if wc c then some (':' :: c :: r.takeWhile wc, r.dropWhile wc)
    else none
  | _ => none

theorem namedHere_length : ∀ {s m rest : List Char},
    namedHere s = some (m, rest) → rest.length < s.length := by
  intro s m rest h
  unfold namedHere at h
  split at h
  · next c r =>
    split at h
    · next =>
      have hr := length_dropWhile_le wc r
      simp at h
      simp [← h.2]
      omega
    · simp at h
  · next c r =>
    split at h
    · next =>
      have hr := length_dropWhile_le wc r
      simp at h
      simp [← h.2]
      omega
    · simp at h
  · simp at h

/-- Leftmost `NAMED_PARAM` match: returns (prefix, match, remainder). -/
def namedScan : List Char → Option (List Char × List Char × List Char)
  | [] => none
  | c :: r =>
    match namedHere (c :: r) with
    | some (m, rest) => some ([], m, rest)
    | none =>
      match namedScan r with
      | some (p, m, rest) => some (c :: p, m, rest)
      | none => none

/-- Model of `NAMED_PARAM.test(s)` (non-global regex, no hidden state). -/
def namedTest (s : List Char) : Bool := (namedScan s).isSome

/-- Translation of `path.replace(NAMED_PARAM, arg)`: replace the first
`NAMED_PARAM` match (including a `(?` prefix when it is part of the match). -/
def replaceFirstNamed (s rep : List Char) : List Char :=
  match namedScan s with
  | some (p, _, rest) => p ++ rep ++ rest
  | none => s

theorem namedScan_length : ∀ {s p m rest : List Char},
    namedScan s = some (p, m, rest) → rest.length < s.length := by
  intro s
  induction s with
  | nil => intro p m rest h; simp [namedScan] at h
  | cons c r ih =>
    intro p m rest h
    simp only [namedScan] at h
    cases hh : namedHere (c :: r) with
    | some q =>
      rw [hh] at h
      cases q with
      | mk m' rest' =>
        simp at h
        obtain ⟨h1, h2, h3⟩ := h
        subst h3
        exact namedHere_length hh
    | none =>
      rw [hh] at h
      cases hs : namedScan r with
      | none => rw [hs] at h; simp at h
      | some q =>
        rw [hs] at h
        obtain ⟨p', m', rest'⟩ := q
        simp at h
        obtain ⟨h1, h2, h3⟩ := h
        have hlt : rest'.length < r.length := ih hs
        subst h3
        simp
        omega

/-- Fuel-indexed worker of `namedMatchList`. -/
def namedMatchListF : Nat → List Char → List (List Char)
  | 0, _ => []
  | fuel + 1, s =>
    match namedScan s with
    | some (_, m, rest) => m :: namedMatchListF fuel rest
    | none => []

/-- Translation of `path.match(NAMED_PARAMS)` (global): all matches in order. -/
def namedMatchList (s : List Char) : List (List Char) :=
  namedMatchListF (s.length + 1) s

/-- Fuel-indexed worker of `repNamed`. -/
def repNamedF : Nat → List Char → List Char
  | 0, s => s
  | fuel + 1, s =>
    match namedScan s with
    | some (p, m, rest) =>
      p ++ (if m.head? = some '(' then m else "([^/?]+)".data) ++ repNamedF fuel rest
    | none => s

/-- Step 3 of `routeToRegex` (line 313):
`route.replace(NAMED_PARAMS, (match, opt) => opt ? match : '([^/?]+)')`.
The capture group `(\(\?)?` is non-null exactly when the match starts with `(`. -/
def repNamed (s : List Char) : List Char := repNamedF (s.length + 1) s

theorem repNamedF_congr : ∀ (n : Nat) (s : List Char) (m : Nat),
    s.length < n → s.length < m → repNamedF n s = repNamedF m s := by
  intro n
  induction n with
  | zero => intro s m h _; omega
  | succ n ih =>
    intro s m hn hm
    match m with
    | 0 => omega
    | m + 1 =>
      simp only [repNamedF]
      cases hsc : namedScan s with
      | some q =>
        obtain ⟨p, mm, rest⟩ := q
        have hlen := namedScan_length hsc
        exact congrArg
          (fun x => (p ++ if mm.head? = some '(' then mm else "([^/?]+)".data) ++ x)
          (ih rest m (by omega) (by omega))
      | none => rfl

/-!  Splat-parameter scanning (`SPLAT_PARAMS = /\*\w+/g`). -/

/-- Fuel-indexed worker of `splatMatchList`. -/
def splatMatchListF : Nat → List Char → List (List Char)
  | 0, _ => []
  | _ + 1, [] => []
  | fuel + 1, '*' :: c :: r =>
    if wc c then ('*' :: c :: r.takeWhile wc) :: splatMatchListF fuel (r.dropWhile wc)
    else splatMatchListF fuel (c :: r)
  | fuel + 1, _ :: r => splatMatchListF fuel r

/-- Translation of `path.match(SPLAT_PARAMS)`: all matches of `\*\w+` in order. -/
def splatMatchList (s : List Char) : List (List Char) :=
  splatMatchListF (s.length + 1) s

/-- Fuel-indexed worker of `replaceAllSplat`. -/
def replaceAllSplatF (enc : List Char) : Nat → List Char → List Char
  | 0, _ => []
  | _ + 1, [] => []
  | fuel + 1, '*' :: c :: r =>
    if wc c then enc ++ replaceAllSplatF enc fuel (r.dropWhile wc)
    else '*' :: replaceAllSplatF enc fuel (c :: r)
  | fuel + 1, c :: r => c :: replaceAllSplatF enc fuel r

/-- Translation of `path.replace(SPLAT_PARAMS, enc)`: the regex is global, so
every match of `\*\w+` is replaced by the same replacement string. -/
def replaceAllSplat (enc : List Char) (s : List Char) : List Char :=
  replaceAllSplatF enc (s.length + 1) s

/-- Fuel-indexed worker of `repSplat`. -/
def repSplatF : Nat → List Char → List Char
  | 0, _ => []
  | _ + 1, [] => []
  | fuel + 1, '*' :: c :: r =>
    if wc c then "([^?]*?)".data ++ repSplatF fuel (r.dropWhile wc)
    else '*' :: repSplatF fuel (c :: r)
  | fuel + 1, c :: r => c :: repSplatF fuel r

/-- Step 4 of `routeToRegex` (line 314):
`route.replace(SPLAT_PARAMS, '([^?]*?)')`. -/
def repSplat (s : List Char) : List Char := repSplatF (s.length + 1) s

/-- Fuel-indexed worker of `splatFind`. -/
def splatFindF : Nat → List Char → Nat → Option Nat
  | 0, _, _ => none
  | _ + 1, [], _ => none
  | fuel + 1, '*' :: c :: r, i =>
    if wc c then some (i + 2 + (r.takeWhile wc).length)
    else splatFindF fuel (c :: r) (i + 1)
  | fuel + 1, _ :: r, i => splatFindF fuel r (i + 1)

/-- End position (exclusive) of the first `\*\w+` match in the suffix starting
at absolute index `i`, if any. -/
def splatFind (s : List Char) (i : Nat) : Option Nat := splatFindF (s.length + 1) s i

/-- Model of `SPLAT_PARAMS.test(s)` with the regex object's current
`lastIndex`.  Per the ECMAScript semantics of `test` on a regex with the `g`
flag: the search starts at `lastIndex`; on success `lastIndex` becomes the end
of the match, on failure it is reset to 0. -/
def splatTestSt (s : List Char) (li : Nat) : Bool × Nat :=
  if li > s.length then (false, 0)
  else
    match splatFind (s.drop li) li with
    | some e => (true, e)
    | none => (false, 0)

/-!  URL-component encoding (JavaScript `encodeURIComponent`). -/

/-- Characters left unescaped by `encodeURIComponent`:
alphanumerics and `- _ . ! ~ * ' ( )`. -/
def isUriUnreserved (c : Char) : Bool :=
  (('A' ≤ c && c ≤ 'Z') || ('a' ≤ c && c ≤ 'z') || ('0' ≤ c && c ≤ '9') ||
   c = '-' || c = '_' || c = '.' || c = '!' || c = '~' || c = '*' ||
   c = '\'' || c = '(' || c = ')')

/-- Upper-case hexadecimal digit for a value below 16. -/
def hexDigit (n : Nat) : Char :=
  if n < 10 then Char.ofNat (48 + n) else Char.ofNat (55 + n)

/-- UTF-8 bytes of a Unicode code point (Lean `Char` excludes surrogates,
which is exactly the set for which `encodeURIComponent` does not throw). -/
def utf8Bytes (n : Nat) : List Nat :=
  if n < 0x80 then [n]
  else if n < 0x800 then [0xC0 + n / 64, 0x80 + n % 64]
  else if n < 0x10000 then [0xE0 + n / 4096, 0x80 + n / 64 % 64, 0x80 + n % 64]
  else [0xF0 + n / 262144, 0x80 + n / 4096 % 64, 0x80 + n / 64 % 64, 0x80 + n % 64]

/-- Percent-escape of one byte. -/
def pctByte (b : Nat) : List Char := ['%', hexDigit (b / 16), hexDigit (b % 16)]

/-- Encoding of one character under `encodeURIComponent`. -/
def encChar (c : Char) : List Char :=
  if isUriUnreserved c then [c]
  else ((utf8Bytes c.toNat).map pctByte).foldr (· ++ ·) []

/-- Translation of `encodeURIComponent` on a string value. -/
def encodeURIComponentL (s : String) : List Char :=
  (s.data.map encChar).foldr (· ++ ·) []

/-- JavaScript string coercion of a possibly-`undefined` value: the `undefined`
produced by a missed keyed lookup prints as the literal text `undefined`. -/
def jsString : Option String → String
  | some s => s
  | none => "undefined"

/-!  Argument injector (`parse`, `replaceArgs`, `replaceArg`,
`isNamedOrSplatParam`, lines 103-196). -/

/-- Translation of `replaceArg` (line 163): encode the argument, then replace
the first `NAMED_PARAM` match if the path contains a `:` anywhere, otherwise
replace every `SPLAT_PARAMS` match (the splat regex carries the `g` flag, so
`String.replace` substitutes all of its matches). -/
def replaceArg (path : List Char) (arg : Option String) : List Char :=
  let enc := encodeURIComponentL (jsString arg)
  if path.contains ':' then replaceFirstNamed path enc
  else replaceAllSplat enc path

/-- Translation of `isNamedOrSplatParam` (line 182) with the hidden
`SPLAT_PARAMS.lastIndex` state: `NAMED_PARAM.test(param)` is stateless; the
splat test is only reached when it fails (JavaScript `||` short-circuits) and
then reads and updates `lastIndex`. -/
def isNamedOrSplatSt (param : List Char) (li : Nat) : Bool × Nat :=
  if namedTest param then (true, li)
  else splatTestSt param li

/-- The `matches.forEach` cleanup loop of `replaceArgs` (lines 141-149):
every previously collected optional-group match that still looks like a named
or splat parameter is removed from the path (first occurrence). -/
def cleanupOpt (li : Nat) (path : List Char) : List (List Char) → List Char × Nat
  | [] => (path, li)
  | part :: rest =>
    let bs := isNamedOrSplatSt part li
    let path' := if bs.1 then replaceFirstSub path part [] else path
    cleanupOpt bs.2 path' rest

/-- Argument injection core shared by the positional and keyed branches of
`replaceArgs`: fold `replaceArg` over the value sequence, then run the
optional-group cleanup on the matches of the substituted path. -/
def injectArgs (path : List Char) (vals : List (Option String)) (li : Nat) :
    List Char × Nat :=
  let path1 := vals.foldl replaceArg path
  cleanupOpt li path1 (optMatchList path1)

/-- Translation of `replaceArgs` (line 129).  For a keyed argument set the
named tokens are enumerated first; `path.match(NAMED_PARAMS)` is `null` when
there are none and the subsequent `.map` throws - modelled as `none`. -/
def replaceArgsL (path : List Char) (args : Args) (li : Nat) :
    Option (List Char) × Nat :=
  match args with
  | .null => let r := injectArgs path [] li; (some r.1, r.2)
  | .arr vs => let r := injectArgs path (vs.map some) li; (some r.1, r.2)
  | .obj kvs =>
    match namedMatchList path with
    | [] => (none, li)
    | n :: ns =>
      let vals := (n :: ns).map (fun nm => List.lookup (String.mk (nm.drop 1)) kvs)
      let r := injectArgs path vals li
      (some r.1, r.2)

/-- Translation of `removeParentheses` (line 230): `PARENTHESES = /[\(\)]/g`
removes every parenthesis character. -/
def removeParenthesesL (s : List Char) : List Char :=
  s.filter (fun c => !(c = '(' || c = ')'))

/-- Translation of `removeTrailingSlash` (line 206): `/\/$/` removes one final
slash if present. -/
def removeTrailingSlashL (s : List Char) : List Char :=
  match s.reverse with
  | '/' :: r => r.reverse
  | _ => s

/-- Translation of `removeLeadingSlash` (line 218): `/^\//` removes one leading
slash if present. -/
def removeLeadingSlashL (s : List Char) : List Char :=
  match s with
  | '/' :: r => r
  | _ => s

/-- Translation of `parse` (line 103).  An empty argument set short-circuits to
`removeOptionalParams`; otherwise arguments are injected and the result is
cleaned of parentheses and of one trailing slash.  The `Option` result models
the uncaught `TypeError` of the keyed/no-named-token branch, and the second
component threads `SPLAT_PARAMS.lastIndex`. -/
def parseL (path : List Char) (args : Args) (li : Nat) :
    Option (List Char) × Nat :=
  if jsIsEmpty args then (some (removeOpt path), li)
  else
    match replaceArgsL path args li with
    | (none, li') => (none, li')
    | (some p, li') => (some (removeTrailingSlashL (removeParenthesesL p)), li')

/-- String-level wrapper of `parseL`. -/
def parse (path : String) (args : Args) (li : Nat) : Option String × Nat :=
  let r := parseL path.data args li
  (r.1.map String.mk, r.2)

/-- String-level wrapper of `removeOpt` = `removeOptionalParams` (line 194). -/
def removeOptionalParams (s : String) : String := String.mk (removeOpt s.data)

/-- String-level wrapper of `removeTrailingSlashL`. -/
def removeTrailingSlash (s : String) : String := String.mk (removeTrailingSlashL s.data)

/-- String-level wrapper of `removeLeadingSlashL`. -/
def removeLeadingSlash (s : String) : String := String.mk (removeLeadingSlashL s.data)

/-!  URL assembler (`smartConcat`, `buildQuery`, `buildPath`, `build`). -/

/-- Options record of the public API; absent fields default like the
JavaScript `options.host || ''` / destructuring defaults. -/
structure Options where
  host : String := ""
  path : String := ""
  params : Args := Args.null
  query : List (String × String) := []
  hash : String := ""
deriving DecidableEq

/-- Translation of `buildPath` (line 329): `parse(options.path, options.params)`. -/
def buildPath (opts : Options) (li : Nat) : Option String × Nat :=
  parse opts.path opts.params li

/-- Join of the rendered `key=encodedValue` pairs with `&`. -/
def queryParts : List (String × String) → List Char
  | [] => []
  | [(k, v)] => k.data ++ '=' :: encodeURIComponentL v
  | (k, v) :: kv :: rest => k.data ++ '=' :: encodeURIComponentL v ++ '&' :: queryParts (kv :: rest)

/-- Translation of `buildQuery` (line 346) applied to the `query` mapping of
the options: each own enumerable entry renders as `key=encodeURIComponent(value)`,
joined with `&`; an empty mapping yields the empty string. -/
def buildQuery (q : List (String × String)) : String := String.mk (queryParts q)

/-- Translation of `smartConcat` (line 242). -/
def smartConcat (host path query hash : String) : String :=
  let host := removeTrailingSlash host
  let path := removeTrailingSlash (removeLeadingSlash path)
  let path := if path = "" then "" else "/" ++ path
  let query := if query = "" then "" else "?" ++ query
  let hash := if hash = "" then "" else "#" ++ hash
  host ++ path ++ query ++ hash

/-- Translation of `build` (line 386), threading `SPLAT_PARAMS.lastIndex`
through the path-building step; `none` propagates the injector fault. -/
def build (opts : Options) (li : Nat) : Option String × Nat :=
  match buildPath opts li with
  | (none, li') => (none, li')
  | (some p, li') =>
    (some (smartConcat opts.host p (buildQuery opts.query) opts.hash), li')

/-!  Stats engine (`getParamsMatch`, `paramsArray2Object`, `testParameter`,
`stats`, lines 266-472).  Within one `stats` call every use of a global regex
other than the final `OPTIONAL_PARAMS.test` is a `String.match`, and
`path.match(OPTIONAL_PARAMS)` on the first line resets
`OPTIONAL_PARAMS.lastIndex` to 0, so the final `test` always starts from
index 0 and `stats` is modelled without hidden state. -/

/-- Result of `getParamsMatch` (line 293). -/
structure ParamsMatch where
  named : List String
  splat : List String
deriving DecidableEq

/-- Translation of `getParamsMatch` (line 293): `path.match(NAMED_PARAMS) || []`
and `path.match(SPLAT_PARAMS) || []`. -/
def getParamsMatch (path : String) : ParamsMatch :=
  ⟨(namedMatchList path.data).map String.mk, (splatMatchList path.data).map String.mk⟩

/-- One analyzed parameter of the stats report (line 457). -/
structure ParamStat where
  name : String
  value : String
  optional : Bool
  required : Bool
deriving DecidableEq

/-- Report returned by `stats` (line 465). -/
structure StatsReport where
  params : List ParamStat
  hasOptionalParams : Bool
  missingOptionalParams : List ParamStat
  missingRequiredParams : List ParamStat
  missingParams : List ParamStat
deriving DecidableEq

/-- JavaScript object property assignment on an insertion-ordered association
list: an existing key keeps its position and gets the new value, a new key is
appended. -/
def assocSet (m : List (String × Option String)) (k : String) (v : Option String) :
    List (String × Option String) :=
  match m with
  | [] => [(k, v)]
  | (k', v') :: r => if k' = k then (k, v) :: r else (k', v') :: assocSet r k v

/-- Translation of `paramsArray2Object` (line 407): named tokens first, then
splat tokens, are zipped against the positional values by a running index;
an index beyond the array yields `undefined` (here `none`). -/
def paramsArray2Object (path : List Char) (vs : List String) :
    List (String × Option String) :=
  let names := (namedMatchList path ++ splatMatchList path).map
    (fun n => String.mk (n.drop 1))
  (names.foldl (fun acc nm => (assocSet acc.1 nm (vs.get? acc.2), acc.2 + 1))
    (([] : List (String × Option String)), 0)).1

/-- JavaScript `x || ''` on the result of a property lookup: a missing key or
a stored `undefined` (and the falsy empty string) all give `''`. -/
def jsOrEmpty : Option (Option String) → String
  | some (some v) => v
  | _ => ""

/-- Translation of `stats` (line 434). -/
def statsL (path : List Char) (args : Args) : StatsReport :=
  let optional := optMatchList path
  let named := namedMatchList path
  let splat := splatMatchList path
  let params := named ++ splat
  let argsN : List (String × Option String) :=
    match args with
    | .arr vs => paramsArray2Object path vs
    | .obj kvs => kvs.map (fun kv => (kv.1, some kv.2))
    | .null => []
  let ps := params.map (fun param =>
    let isOpt := optional.any (fun p => containsSub param p)
    ParamStat.mk (String.mk param)
      (jsOrEmpty (List.lookup (String.mk (param.drop 1)) argsN))
      isOpt (!isOpt))
  StatsReport.mk ps (hasMatch path)
    (ps.filter (fun p => p.optional && p.value == ""))
    (ps.filter (fun p => p.required && p.value == ""))
    (ps.filter (fun p => !(p.name == "") && p.value == ""))

/-- String-level wrapper of `statsL`. -/
def stats (path : String) (args : Args) : StatsReport := statsL path.data args

/-!  Regex compiler (`routeToRegex`, line 310) and `test` (line 367).

The compiler is a pure string transformation; it is modelled exactly.  To
settle matching claims, the produced regex source is parsed into a small
regex AST covering the syntax the compiler can emit, and matching is decided
with Brzozowski derivatives.  The JavaScript regex is `^body$`-anchored, so
`test` is modelled as a full match of the body (the body never contains an
unescaped anchor: `ESCAPE` escapes `^` and `$`). -/

/-- Characters escaped by `ESCAPE = /[\-{}\[\]+?.,\\\^$|#\s]/g`. -/
def isEscapeChar (c : Char) : Bool :=
  c = '-' || c = '\x7b' || c = '\x7d' || c = '[' || c = ']' || c = '+' ||
  c = '?' || c = '.' || c = ',' || c = '\\' || c = '^' || c = '$' ||
  c = '|' || c = '#' || isJsWs c

/-- Step 1 of `routeToRegex`: `route.replace(ESCAPE, '\\$&')`. -/
def escapeL : List Char → List Char
  | [] => []
  | c :: r => if isEscapeChar c then '\\' :: c :: escapeL r else c :: escapeL r

/-- Body of the compiled regex: the four replacement steps of `routeToRegex`
in source order (escape, optional groups, named parameters, splats). -/
def regexBody (route : List Char) : List Char :=
  repSplat (repNamed (repOptG (escapeL route)))

/-- Translation of `routeToRegex` (line 310) at the level of the regex source
string: `'^' + transformed + '(?:\\?([\\s\\S]*))?$'`. -/
def routeToRegexSrc (route : String) : String :=
  String.mk ('^' :: regexBody route.data ++ "(?:\\?([\\s\\S]*))?$".data)

/-- Item of a regex character class. -/
inductive CItem where
  | ch : Char → CItem
  | wsp : CItem
  | nwsp : CItem
deriving DecidableEq

/-- Regex AST for the fragment of JavaScript regex syntax that
`routeToRegex` can emit. -/
inductive Rgx where
  | eps : Rgx
  | nul : Rgx
  | cls : Bool → List CItem → Rgx
  | cat : Rgx → Rgx → Rgx
  | alt : Rgx → Rgx → Rgx
  | star : Rgx → Rgx
deriving DecidableEq

/-- Does a class item match a character? -/
def citemMatch (c : Char) : CItem → Bool
  | .ch d => c = d
  | .wsp => isJsWs c
  | .nwsp => !isJsWs c

/-- Does a (possibly negated) character class match a character? -/
def clsMatch (neg : Bool) (items : List CItem) (c : Char) : Bool :=
  if neg then !(items.any (citemMatch c)) else items.any (citemMatch c)

/-- Can the regex match the empty string? -/
def nullable : Rgx → Bool
  | .eps => true
  | .nul => false
  | .cls _ _ => false
  | .cat a b => nullable a && nullable b
  | .alt a b => nullable a || nullable b
  | .star _ => true

/-- Size-reducing concatenation. -/
def catS (a b : Rgx) : Rgx :=
  match a, b with
  | .nul, _ => .nul
  | _, .nul => .nul
  | .eps, b => b
  | a, .eps => a
  | a, b => .cat a b

/-- Size-reducing alternation. -/
def altS (a b : Rgx) : Rgx :=
  match a, b with
  | .nul, b => b
  | a, .nul => a
  | a, b => .alt a b

/-- Brzozowski derivative of a regex by one character. -/
def rderiv (r : Rgx) (c : Char) : Rgx :=
  match r with
  | .eps => .nul
  | .nul => .nul
  | .cls n items => if clsMatch n items c then .eps else .nul
  | .cat a b =>
    if nullable a then altS (catS (rderiv a c) b) (rderiv b c)
    else catS (rderiv a c) b
  | .alt a b => altS (rderiv a c) (rderiv b c)
  | .star a => catS (rderiv a c) (.star a)

/-- Full match of a regex against a character list. -/
def rmatch (r : Rgx) (s : List Char) : Bool :=
  nullable (s.foldl rderiv r)

/-- Class item denoted by an escape inside a character class (only `\s` and
`\S` can appear in compiler output; any other escaped character is literal). -/
def escItem (c : Char) : CItem :=
  if c = 's' then .wsp else if c = 'S' then .nwsp else .ch c

/-- Atom denoted by a top-level escape. -/
def escAtom (c : Char) : Rgx :=
  if c = 's' then .cls false [.wsp]
  else if c = 'S' then .cls false [.nwsp]
  else .cls false [.ch c]

/-- Parse the items of a character class up to the closing bracket. -/
def parseCItems : List Char → Option (List CItem × List Char)
  | [] => none
  | ']' :: r => some ([], r)
  | '\\' :: c :: r =>
    match parseCItems r with
    | some (items, rest) => some (escItem c :: items, rest)
    | none => none
  | c :: r =>
    match parseCItems r with
    | some (items, rest) => some (CItem.ch c :: items, rest)
    | none => none

/-- Parse a character class after the opening bracket. -/
def parseClass (s : List Char) : Option (Rgx × List Char) :=
  let p := match s with
    | '^' :: r => (true, r)
    | _ => (false, s)
  match parseCItems p.2 with
  | some (items, rest) => some (Rgx.cls p.1 items, rest)
  | none => none

/-- Parse one postfix quantifier (with an optional laziness marker, which
does not change the matched language). -/
def parsePostfix (r : Rgx) (s : List Char) : Rgx × List Char :=
  match s with
  | '?' :: '?' :: rest => (.alt .eps r, rest)
  | '?' :: rest => (.alt .eps r, rest)
  | '*' :: '?' :: rest => (.star r, rest)
  | '*' :: rest => (.star r, rest)
  | '+' :: '?' :: rest => (.cat r (.star r), rest)
  | '+' :: rest => (.cat r (.star r), rest)
  | _ => (r, s)

/-- Parse a sequence of atoms with their quantifiers, stopping at `)` or at
the end of the input.  Fuel bounds the recursion; `parseRgx` supplies more
fuel than any input can consume. -/
def parseAtoms : Nat → List Char → Option (Rgx × List Char)
  | 0, _ => none
  | _ + 1, [] => some (.eps, [])
  | _ + 1, ')' :: rest => some (.eps, ')' :: rest)
  | fuel + 1, '(' :: rest =>
    let inner? : Option (List Char) :=
      match rest with
      | '?' :: ':' :: r2 => some r2
      | '?' :: _ => none
      | _ => some rest
    match inner? with
    | none => none
    | some inner =>
      match parseAtoms fuel inner with
      | some (g, ')' :: after) =>
        let pf := parsePostfix g after
        match parseAtoms fuel pf.2 with
        | some (q, rem) => some (.cat pf.1 q, rem)
        | none => none
      | _ => none
  | fuel + 1, '[' :: rest =>
    match parseClass rest with
    | some (cl, after) =>
      let pf := parsePostfix cl after
      match parseAtoms fuel pf.2 with
      | some (q, rem) => some (.cat pf.1 q, rem)
      | none => none
    | none => none
  | fuel + 1, '\\' :: c :: rest =>
    let pf := parsePostfix (escAtom c) rest
    match parseAtoms fuel pf.2 with
    | some (q, rem) => some (.cat pf.1 q, rem)
    | none => none
  | _ + 1, '\\' :: [] => none
  | fuel + 1, '.' :: rest =>
    let dot := Rgx.cls true [.ch '\n', .ch '\r', .ch (Char.ofNat 0x2028), .ch (Char.ofNat 0x2029)]
    let pf := parsePostfix dot rest
    match parseAtoms fuel pf.2 with
    | some (q, rem) => some (.cat pf.1 q, rem)
    | none => none
  | _ + 1, '*' :: _ => none
  | _ + 1, '+' :: _ => none
  | _ + 1, '?' :: _ => none
  | fuel + 1, c :: rest =>
    let pf := parsePostfix (Rgx.cls false [.ch c]) rest
    match parseAtoms fuel pf.2 with
    | some (q, rem) => some (.cat pf.1 q, rem)
    | none => none

/-- Parse a complete regex source (the body between the `^` and `$` anchors);
`none` models a `SyntaxError` from the `RegExp` constructor. -/
def parseRgx (s : List Char) : Option Rgx :=
  match parseAtoms (s.length + 2) s with
  | some (r, []) => some r
  | _ => none

/-- Translation of `test` (line 367): compile `options.path` with
`routeToRegex` and match `options.url` against it.  The compiled regex is
anchored on both sides, so `test` is a full match of the body together with
the trailing optional query capture. -/
def testRoute (path url : String) : Option Bool :=
  (parseRgx (regexBody path.data ++ "(?:\\?([\\s\\S]*))?".data)).map
    (fun r => rmatch r url.data)

/-- Modelled from the claim's wording (C6): replace every named-parameter
token (a `:` followed by a maximal nonempty run of word characters) by the
capture group `([^/?]+)`, except that a token immediately preceded by the two
characters `(?` is left untouched as literal text.  The two previous
characters are tracked explicitly while scanning. -/
def repNamedSpec (p2 p1 : Option Char) : List Char → List Char
  | [] => []
  | ':' :: c :: r =>
    if wc c then
      let tok := ':' :: c :: r.takeWhile wc
      let out := if p2 = some '(' && p1 = some '?' then tok else "([^/?]+)".data
      out ++ repNamedSpec (tok.get? (tok.length - 2)) tok.getLast? (r.dropWhile wc)
    else ':' :: repNamedSpec p1 (some ':') (c :: r)
  | c :: r => c :: repNamedSpec p1 (some c) r
termination_by s => s.length
decreasing_by
  all_goals first
    | (simp; done)
    | (simp; omega)
    | (have h9 := length_dropWhile_le wc r; simp; omega)

/-!  Lemmas about the optional-group stripper. -/

theorem removeOpt_cons_some {r i rest : List Char} (h : takeToClose r = some (i, rest)) :
    removeOpt ('(' :: r) = removeOpt rest := by
  have hlen := takeToClose_length h
  show removeOptF (('(' :: r).length + 1) ('(' :: r) = removeOptF (rest.length + 1) rest
  simp only [List.length_cons, removeOptF, h]
  exact removeOptF_congr (r.length + 1) rest (rest.length + 1) (by omega) (by omega)

theorem removeOpt_cons_none {r : List Char} (h : takeToClose r = none) :
    removeOpt ('(' :: r) = '(' :: removeOpt r := by
  show removeOptF (('(' :: r).length + 1) ('(' :: r) = '(' :: removeOptF (r.length + 1) r
  simp only [List.length_cons, removeOptF, h]
  simp

theorem removeOpt_cons_other {c : Char} {r : List Char} (h : ¬ c = '(') :
    removeOpt (c :: r) = c :: removeOpt r := by
  show removeOptF ((c :: r).length + 1) (c :: r) = c :: removeOptF (r.length + 1) r
  simp only [List.length_cons, removeOptF, if_neg h]

theorem removeOpt_cons' {c : Char} {r : List Char} (h : takeToClose r = none) :
    removeOpt (c :: r) = c :: removeOpt r := by
  by_cases hp : c = '('
  · subst hp; exact removeOpt_cons_none h
  · exact removeOpt_cons_other hp

theorem takeToClose_none_removeOpt : ∀ {r : List Char},
    takeToClose r = none → takeToClose (removeOpt r) = none := by
  intro r
  induction r with
  | nil => intro _; simp [removeOpt, takeToClose]
  | cons c r ih =>
    intro h
    simp only [takeToClose] at h
    by_cases hc : c = ')'
    · simp [hc] at h
    · by_cases hn : isDotNl c
      · have hcp : ¬ (c = '(') := by
          intro hcc
          subst hcc
          exact absurd hn (by decide)
        rw [removeOpt_cons_other hcp]
        simp [takeToClose, hc, hn]
      · have hr : takeToClose r = none := by
          rw [if_neg hc, if_neg hn] at h
          cases htc : takeToClose r with
          | none => rfl
          | some p => rw [htc] at h; obtain ⟨i, rest⟩ := p; simp at h
        rw [removeOpt_cons' hr]
        simp [takeToClose, hc, hn, ih hr]

theorem hasMatch_removeOpt_aux : ∀ (n : Nat) (s : List Char), s.length ≤ n →
    hasMatch (removeOpt s) = false := by
  intro n
  induction n with
  | zero =>
    intro s hs
    have h0 : s = [] := List.length_eq_zero.mp (Nat.le_zero.mp hs)
    subst h0
    simp [removeOpt, hasMatch]
  | succ n ih =>
    intro s hs
    match s with
    | [] => simp [removeOpt, hasMatch]
    | c :: r =>
      by_cases hp : c = '('
      · subst hp
        cases htc : takeToClose r with
        | some p =>
          obtain ⟨i, rest⟩ := p
          rw [removeOpt_cons_some htc]
          have hlen := takeToClose_length htc
          simp at hs
          exact ih rest (by omega)
        | none =>
          rw [removeOpt_cons_none htc]
          simp at hs
          simp [hasMatch, takeToClose_none_removeOpt htc, ih r (by omega)]
      · rw [removeOpt_cons_other hp]
        simp at hs
        simp [hasMatch, hp, ih r (by omega)]

theorem hasMatch_removeOpt (s : List Char) : hasMatch (removeOpt s) = false :=
  hasMatch_removeOpt_aux s.length s (Nat.le_refl _)

theorem removeOpt_of_no_match : ∀ {s : List Char},
    hasMatch s = false → removeOpt s = s := by
  intro s
  induction s with
  | nil => intro _; simp [removeOpt, removeOptF]
  | cons c r ih =>
    intro h
    simp [hasMatch] at h
    by_cases hp : c = '('
    · subst hp
      cases htc : takeToClose r with
      | some p =>
        exfalso
        have h1 := h.1 rfl
        rw [htc] at h1
        simp at h1
      | none => rw [removeOpt_cons_none htc, ih h.2]
    · rw [removeOpt_cons_other hp, ih h.2]

/-- The global non-greedy optional-group removal is idempotent: its output
contains no further match of `OPTIONAL_PARAMS`. -/
theorem removeOpt_idem (s : List Char) : removeOpt (removeOpt s) = removeOpt s :=
  removeOpt_of_no_match (hasMatch_removeOpt s)

/-!  Equivalence of the regex-semantics named-parameter replacement (step 3 of
`routeToRegex`) and the adjacency formulation of the specification. -/

/-- Does the string start with a named-parameter token `:` + word character? -/
def tokStartB : List Char → Bool
  | ':' :: c :: _ => wc c
  | _ => false

/-- Does the string start with `?` immediately followed by a named token? -/
def qTokB : List Char → Bool
  | '?' :: ':' :: c :: _ => wc c
  | _ => false

/-- Scanner invariant: the two characters before the current position are
never `(?` when a token starts here, and never end in `(` when `?:w` follows.
It holds initially and is preserved by both replacement functions. -/
def PInv (p2 p1 : Option Char) (s : List Char) : Prop :=
  ¬(p2 = some '(' ∧ p1 = some '?' ∧ tokStartB s = true) ∧
  ¬(p1 = some '(' ∧ qTokB s = true)

theorem namedScan_cons_here {c : Char} {r m rest : List Char}
    (h : namedHere (c :: r) = some (m, rest)) :
    namedScan (c :: r) = some ([], m, rest) := by
  simp [namedScan, h]

theorem repNamed_eq_none {s : List Char} (h : namedScan s = none) :
    repNamed s = s := by
  show repNamedF (s.length + 1) s = s
  simp only [repNamedF, h]

theorem repNamed_eq_some {s p m rest : List Char} (h : namedScan s = some (p, m, rest)) :
    repNamed s = p ++ (if m.head? = some '(' then m else "([^/?]+)".data) ++ repNamed rest := by
  have hlen := namedScan_length h
  show repNamedF (s.length + 1) s = _
  simp only [repNamedF, h]
  rw [repNamedF_congr s.length rest (rest.length + 1) (by omega) (by omega)]
  simp [repNamed]

theorem repNamed_cons_skip {c : Char} {r : List Char} (h : namedHere (c :: r) = none) :
    repNamed (c :: r) = c :: repNamed r := by
  cases hs : namedScan r with
  | none =>
    have h1 : namedScan (c :: r) = none := by simp [namedScan, h, hs]
    rw [repNamed_eq_none h1, repNamed_eq_none hs]
  | some q =>
    obtain ⟨p, m, rest⟩ := q
    have h1 : namedScan (c :: r) = some (c :: p, m, rest) := by
      simp [namedScan, h, hs]
    rw [repNamed_eq_some h1, repNamed_eq_some hs]
    simp

theorem repNamed_cons_here {c : Char} {r m rest : List Char}
    (h : namedHere (c :: r) = some (m, rest)) :
    repNamed (c :: r) =
      (if m.head? = some '(' then m else "([^/?]+)".data) ++ repNamed rest := by
  rw [repNamed_eq_some (namedScan_cons_here h)]
  simp

theorem tokStartB_true {s : List Char} (h : tokStartB s = true) :
    ∃ d r', s = ':' :: d :: r' ∧ wc d = true := by
  unfold tokStartB at h
  split at h
  · next d r' => exact ⟨d, r', rfl, h⟩
  · cases h

theorem qTokB_true {s : List Char} (h : qTokB s = true) :
    ∃ d r', s = '?' :: ':' :: d :: r' ∧ wc d = true := by
  unfold qTokB at h
  split at h
  · next d r' => exact ⟨d, r', rfl, h⟩
  · cases h

theorem namedHere_none_tokStart {c : Char} {r : List Char}
    (h : namedHere (c :: r) = none) : tokStartB (c :: r) = false := by
  cases htk : tokStartB (c :: r) with
  | false => rfl
  | true =>
    exfalso
    obtain ⟨d, r', heq, hw⟩ := tokStartB_true htk
    rw [heq] at h
    rw [namedHere, if_pos hw] at h
    cases h

theorem PInv_step {p2 p1 : Option Char} {c : Char} {r : List Char}
    (hP : PInv p2 p1 (c :: r)) (hnh : namedHere (c :: r) = none) :
    PInv p1 (some c) r := by
  constructor
  · rintro ⟨h1, h2, h3⟩
    injection h2 with h2
    subst h2
    obtain ⟨d, r', heq, hw⟩ := tokStartB_true h3
    refine hP.2 ⟨h1, ?_⟩
    rw [heq]
    simpa [qTokB] using hw
  · rintro ⟨h1, h2⟩
    injection h1 with h1
    subst h1
    obtain ⟨d, r', heq, hw⟩ := qTokB_true h2
    rw [heq] at hnh
    rw [namedHere, if_pos hw] at hnh
    cases hnh

theorem wc_last_tok {c : Char} {tw : List Char} (hc : wc c = true)
    (hall : ∀ x ∈ tw, wc x = true) :
    ∃ d, (':' :: c :: tw).getLast? = some d ∧ wc d = true := by
  cases htw : tw with
  | nil => exact ⟨c, rfl, hc⟩
  | cons y ys =>
    have hne : (y :: ys) ≠ [] := by simp
    refine ⟨(y :: ys).getLast hne, ?_, ?_⟩
    · rw [List.getLast?_cons_cons, List.getLast?_cons_cons]
      exact List.getLast?_eq_getLast _ hne
    · exact hall _ (htw ▸ List.getLast_mem hne)

theorem PInv_of_wc {p2 p1 : Option Char} {s : List Char}
    (h : ∃ d, p1 = some d ∧ wc d = true) : PInv p2 p1 s := by
  obtain ⟨d, hd, hw⟩ := h
  subst hd
  constructor
  · rintro ⟨_, h2, _⟩
    injection h2 with h2
    subst h2
    exact absurd hw (by decide)
  · rintro ⟨h1, _⟩
    injection h1 with h1
    subst h1
    exact absurd hw (by decide)

theorem repNamedSpec_nil (p2 p1 : Option Char) : repNamedSpec p2 p1 [] = [] := by
  rw [repNamedSpec]

theorem repNamedSpec_generic {c : Char} {r : List Char} (p2 p1 : Option Char)
    (h : tokStartB (c :: r) = false) :
    repNamedSpec p2 p1 (c :: r) = c :: repNamedSpec p1 (some c) r := by
  rw [repNamedSpec.eq_def]
  split
  · next heq => cases heq
  · next c' r' heq =>
    injection heq with h1 h2
    subst h1
    subst h2
    rw [if_neg]
    intro hw
    rw [tokStartB] at h
    rw [hw] at h
    cases h
  · next c' r' heq =>
    injection heq with h1 h2
    subst h1
    subst h2
    rfl

theorem repNamedSpec_token {p2 p1 : Option Char} {c : Char} {r : List Char}
    (hw : wc c = true) :
    repNamedSpec p2 p1 (':' :: c :: r) =
      (if (p2 = some '(' && p1 = some '?') then ':' :: c :: r.takeWhile wc
       else "([^/?]+)".data) ++
      repNamedSpec ((':' :: c :: r.takeWhile wc).get? ((':' :: c :: r.takeWhile wc).length - 2))
        (':' :: c :: r.takeWhile wc).getLast? (r.dropWhile wc) := by
  rw [repNamedSpec.eq_def]
  split
  · next heq => cases heq
  · next c' r' heq =>
    injection heq with h1 h2
    injection h2 with h2a h2b
    subst h2a
    subst h2b
    rw [if_pos hw]
  · next c' r' hno heq =>
    injection heq with h1 h2
    exact absurd (hno c r h1.symm h2.symm) (by simp)

/-- Inversion of a successful `NAMED_PARAM` match attempt. -/
theorem namedHere_some_inv {s m rest : List Char} (h : namedHere s = some (m, rest)) :
    (∃ c r, s = '(' :: '?' :: ':' :: c :: r ∧ wc c = true ∧
      m = '(' :: '?' :: ':' :: c :: r.takeWhile wc ∧ rest = r.dropWhile wc) ∨
    (∃ c r, s = ':' :: c :: r ∧ wc c = true ∧
      m = ':' :: c :: r.takeWhile wc ∧ rest = r.dropWhile wc) := by
  unfold namedHere at h
  split at h
  · next c r =>
    split at h
    · next hw =>
      injection h with h
      injection h with hm hrest
      exact Or.inl ⟨c, r, rfl, hw, hm.symm, hrest.symm⟩
    · cases h
  · next c r =>
    split at h
    · next hw =>
      injection h with h
      injection h with hm hrest
      exact Or.inr ⟨c, r, rfl, hw, hm.symm, hrest.symm⟩
    · cases h
  · cases h

theorem repNamedSpec_eq_aux : ∀ (n : Nat) (s : List Char) (p2 p1 : Option Char),
    s.length ≤ n → PInv p2 p1 s → repNamedSpec p2 p1 s = repNamed s := by
  intro n
  induction n with
  | zero =>
    intro s p2 p1 hs _
    have h0 : s = [] := List.length_eq_zero.mp (Nat.le_zero.mp hs)
    subst h0
    rw [repNamedSpec_nil, repNamed_eq_none (by simp [namedScan])]
  | succ n ih =>
    intro s p2 p1 hs hP
    match s with
    | [] => rw [repNamedSpec_nil, repNamed_eq_none (by simp [namedScan])]
    | c :: r =>
      cases hnh : namedHere (c :: r) with
      | none =>
        rw [repNamed_cons_skip hnh,
          repNamedSpec_generic p2 p1 (namedHere_none_tokStart hnh)]
        simp at hs
        exact congrArg (c :: ·) (ih r p1 (some c) (by omega) (PInv_step hP hnh))
      | some q =>
        obtain ⟨m, rest⟩ := q
        rcases namedHere_some_inv hnh with ⟨d, r', heq, hw, hm, hrest⟩ |
          ⟨d, r', heq, hw, hm, hrest⟩
        · -- the token sits right after a literal `(?`: both sides keep it
          cases heq
          rw [repNamed_cons_here hnh, hm, hrest]
          have hhead : ('(' :: '?' :: ':' :: d :: List.takeWhile wc r').head? = some '(' := rfl
          rw [if_pos hhead]
          have hg1 : tokStartB ('(' :: '?' :: ':' :: d :: r') = false := rfl
          have hg2 : tokStartB ('?' :: ':' :: d :: r') = false := rfl
          rw [repNamedSpec_generic p2 p1 hg1, repNamedSpec_generic _ _ hg2,
            repNamedSpec_token hw]
          rw [if_pos (by simp)]
          have hall : ∀ x ∈ r'.takeWhile wc, wc x = true := by
            intro x hx
            exact List.mem_takeWhile_imp hx
          have hlast := wc_last_tok hw hall
          have hlen : (r'.dropWhile wc).length ≤ n := by
            have h1 := length_dropWhile_le wc r'
            simp at hs
            omega
          rw [ih (r'.dropWhile wc) _ _ hlen (PInv_of_wc hlast)]
          simp
        · -- an ordinary named token: both sides emit the capture group
          cases heq
          rw [repNamed_cons_here hnh, hm, hrest]
          rw [if_neg (by simp)]
          rw [repNamedSpec_token hw]
          have hcond : ¬ ((p2 = some '(' && p1 = some '?') = true) := by
            intro hb
            simp at hb
            exact hP.1 ⟨hb.1, hb.2, by simp [tokStartB, hw]⟩
          rw [if_neg hcond]
          have hall : ∀ x ∈ r'.takeWhile wc, wc x = true := by
            intro x hx
            exact List.mem_takeWhile_imp hx
          have hlast := wc_last_tok hw hall
          have hlen : (r'.dropWhile wc).length ≤ n := by
            have h1 := length_dropWhile_le wc r'
            simp at hs
            omega
          rw [ih (r'.dropWhile wc) _ _ hlen (PInv_of_wc hlast)]

/-- The regex-semantics replacement of step 3 agrees with the adjacency rule
of the specification on every string. -/
theorem repNamed_eq_spec (s : List Char) : repNamed s = repNamedSpec none none s := by
  refine (repNamedSpec_eq_aux s.length s none none (Nat.le_refl _) ?_).symm
  constructor
  · rintro ⟨h, _⟩; cases h
  · rintro ⟨h, _⟩; cases h

/-!  Auxiliary lemmas for the claim theorems. -/

theorem lookup_map_some (k : String) (kvs : List (String × String)) :
    List.lookup k (kvs.map (fun kv => (kv.1, some kv.2))) =
      (List.lookup k kvs).map some := by
  induction kvs with
  | nil => simp [List.lookup]
  | cons kv r ih =>
    obtain ⟨k', v'⟩ := kv
    simp only [List.map, List.lookup]
    by_cases hk : k = k'
    · simp [hk]
    · have : (k == k') = false := by simp [hk]
      simp [this, ih]

theorem jsOrEmpty_map_some (o : Option String) :
    jsOrEmpty (o.map some) = o.getD "" := by
  cases o <;> rfl

theorem mem_removeTrailingSlashL {c : Char} {s : List Char}
    (h : c ∈ removeTrailingSlashL s) : c ∈ s := by
  unfold removeTrailingSlashL at h
  split at h
  · next r heq =>
    have h1 : c ∈ r := List.mem_reverse.mp h
    have h2 : c ∈ s.reverse := by rw [heq]; exact List.mem_cons_of_mem _ h1
    exact List.mem_reverse.mp h2
  · exact h

theorem not_paren_removeParenthesesL (t : List Char) :
    '(' ∉ removeParenthesesL t ∧ ')' ∉ removeParenthesesL t := by
  constructor <;>
  · intro hmem
    have := List.of_mem_filter hmem
    simp at this

/-!  Claim theorems. -/

/-- Claim C1.  Code evaluation at the failing input: for the all-splat pattern
`/a/*x/*y` with positional arguments `["1","2"]`, `parse` returns `/a/1/1`:
the first value replaces every splat occurrence (the splat regex is global in
`path.replace`), and the second value is never consumed - not `/a/1/2` with
distinct values on distinct splat tokens as the claim (and the doc comment of
`replaceArg`, "Replace the first matching dynamic part") describe. -/
theorem claim1_splat_eval :
    parse "/a/*x/*y" (Args.arr ["1", "2"]) 0 = (some "/a/1/1", 0) := by decide

/-- Claim C2.  Code evaluation of the hidden-state fault: two calls of the
public path operation with identical inputs give different results, because
`isNamedOrSplatParam` calls `SPLAT_PARAMS.test`, which advances the module
constant's `lastIndex` (here from 0 to 3).  The first call removes the
still-unfilled optional splat group and returns `/v`; the second call starts
the splat test at `lastIndex = 3`, fails to recognise `(*b)` as a splat
parameter, and returns `/v*b`. -/
theorem claim2_impure_eval :
    parse "/:a(*b)" (Args.arr ["v"]) 0 = (some "/v", 3) ∧
    (parse "/:a(*b)" (Args.arr ["v"]) 3).1 = some "/v*b" := by decide

/-- Claim C3.  The injector faults (modelled `none`, the `null`-dereference on
`path.match(NAMED_PARAMS).map`) exactly when the argument set is a non-empty
keyed mapping and the pattern has zero named-parameter tokens; every other
input shape returns a string. -/
theorem claim3_fault_iff (path : String) (args : Args) (li : Nat) :
    (parse path args li).1 = none ↔
      ∃ kvs, args = Args.obj kvs ∧ kvs ≠ [] ∧ namedMatchList path.data = [] := by
  constructor
  · intro h
    match args with
    | .null => simp [parse, parseL, jsIsEmpty] at h
    | .arr vs =>
      by_cases he : vs.isEmpty
      · simp [parse, parseL, jsIsEmpty, he] at h
      · simp [parse, parseL, jsIsEmpty, he, replaceArgsL] at h
    | .obj kvs =>
      by_cases he : kvs.isEmpty
      · simp [parse, parseL, jsIsEmpty, he] at h
      · refine ⟨kvs, rfl, by simpa using he, ?_⟩
        cases hnm : namedMatchList path.data with
        | nil => rfl
        | cons n ns =>
          exfalso
          simp [parse, parseL, jsIsEmpty, he, replaceArgsL, hnm] at h
  · rintro ⟨kvs, rfl, hne, hnm⟩
    have he : kvs.isEmpty = false := by simpa using hne
    simp [parse, parseL, jsIsEmpty, he, replaceArgsL, hnm]

/-- Claim C3 witness: a concrete keyed argument set against a pattern with no
named token faults. -/
theorem claim3_witness :
    (parse "/users" (Args.obj [("a", "b")]) 0).1 = none :=
  (claim3_fault_iff "/users" (Args.obj [("a", "b")]) 0).mpr
    ⟨[("a", "b")], rfl, by decide, by decide⟩

/-- Claim C4.  With an empty argument set (null, empty array, or mapping with
no own enumerable key) the public path operation returns the pattern with
every optional group (parentheses and contents) removed, and the operation is
idempotent on its own output. -/
theorem claim4_empty_args (p : String) (args : Args) (li : Nat)
    (h : jsIsEmpty args = true) :
    (buildPath (Options.mk "" p args [] "") li).1 = some (removeOptionalParams p) ∧
    (buildPath (Options.mk "" (removeOptionalParams p) args [] "") li).1 =
      some (removeOptionalParams p) := by
  constructor
  · simp [buildPath, parse, parseL, h, removeOptionalParams]
  · simp [buildPath, parse, parseL, h, removeOptionalParams, removeOpt_idem]

/-- Claim C4 witness at a concrete pattern and the empty mapping. -/
theorem claim4_witness :
    jsIsEmpty (Args.obj []) = true ∧
    (buildPath (Options.mk "" "/users(/:id)" (Args.obj []) [] "") 0).1 =
      some "/users" ∧
    (buildPath (Options.mk "" "/users" (Args.obj []) [] "") 0).1 = some "/users" := by
  refine ⟨by decide, ?_, ?_⟩
  · have h := (claim4_empty_args "/users(/:id)" (Args.obj []) 0 (by decide)).1
    rw [h]
    decide
  · have h := (claim4_empty_args "/users(/:id)" (Args.obj []) 0 (by decide)).2
    have he : removeOptionalParams "/users(/:id)" = "/users" := by decide
    rw [he] at h
    exact h

/-- Claim C5.  The compiled regex for `/users/:id` accepts `/users/42` and
rejects `/users/` (the named-parameter group requires at least one character
that is neither `/` nor `?`), and for every route the compiled source is
anchored `^...$` and ends with the single trailing optional query capture
group. -/
theorem claim5_regex_shape :
    testRoute "/users/:id" "/users/42" = some true ∧
    testRoute "/users/:id" "/users/" = some false ∧
    ∀ route : String, ∃ body : List Char,
      routeToRegexSrc route = String.mk ('^' :: body ++ "(?:\\?([\\s\\S]*))?$".data) := by
  refine ⟨by decide, by decide, ?_⟩
  intro route
  exact ⟨regexBody route.data, rfl⟩

/-- Claim C6.  In the regex compiler, step 3 leaves a named-parameter token
untouched exactly when it is immediately preceded by the two characters `(?`,
and turns every other named-parameter token into the capture group
`([^/?]+)`: the translation of the source replacement (left) coincides with
the adjacency-rule specification (right) on every string, and hence inside
the full compilation pipeline. -/
theorem claim6_adjacency_rule :
    (∀ s : List Char, repNamed s = repNamedSpec none none s) ∧
    ∀ route : List Char,
      regexBody route = repSplat (repNamedSpec none none (repOptG (escapeL route))) := by
  refine ⟨repNamed_eq_spec, ?_⟩
  intro route
  rw [regexBody, repNamed_eq_spec]

/-- Claim C7 counterexample: the assembler strips only one trailing slash from
the host and one leading slash from the path, so `build` with host `h` and
path `//a` yields `h//a` - two slashes between a non-empty host and a
non-empty path, against the claimed "exactly one slash ... no duplicate
separators". -/
theorem claim7_counterexample :
    (build (Options.mk "h" "//a" Args.null [] "") 0).1 = some "h//a" ∧
    containsSub ['/', '/'] "h//a".data = true := by decide

/-- Claim C7 (amended).  Calling `build` with no options yields the empty
string, and whenever the path step returns, the assembled URL is the host
with one trailing slash stripped, a `/`-prefixed non-empty path (itself
stripped of one leading and one trailing slash), a `?`-prefixed non-empty
query and a `#`-prefixed non-empty hash, with no glue character for an empty
part.  A single separating slash is guaranteed only when the stripped host
does not still end in a slash and the stripped path does not still start with
one. -/
theorem claim7_assembly :
    (build (Options.mk "" "" Args.null [] "") 0).1 = some "" ∧
    ∀ (opts : Options) (li : Nat) (p : String),
      (parse opts.path opts.params li).1 = some p →
      (build opts li).1 = some
        (removeTrailingSlash opts.host ++
         (if removeTrailingSlash (removeLeadingSlash p) = "" then ""
          else "/" ++ removeTrailingSlash (removeLeadingSlash p)) ++
         (if buildQuery opts.query = "" then "" else "?" ++ buildQuery opts.query) ++
         (if opts.hash = "" then "" else "#" ++ opts.hash)) := by
  refine ⟨by decide, ?_⟩
  intro opts li p h
  cases hb : parse opts.path opts.params li with
  | mk res li2 =>
    rw [hb] at h
    simp at h
    subst h
    simp [build, buildPath, hb, smartConcat]

/-- Claim C7 witness: the assembly equation applied at a concrete options
record with every part non-empty. -/
theorem claim7_witness :
    (parse "/users" Args.null 0).1 = some "/users" ∧
    (build (Options.mk "http://a.com/" "/users" Args.null [("q", "1")] "top") 0).1 =
      some
        (removeTrailingSlash "http://a.com/" ++
         (if removeTrailingSlash (removeLeadingSlash "/users") = "" then ""
          else "/" ++ removeTrailingSlash (removeLeadingSlash "/users")) ++
         (if buildQuery [("q", "1")] = "" then "" else "?" ++ buildQuery [("q", "1")]) ++
         (if ("top" : String) = "" then "" else "#" ++ "top")) :=
  ⟨by decide,
   claim7_assembly.2 (Options.mk "http://a.com/" "/users" Args.null [("q", "1")] "top")
     0 "/users" (by decide)⟩

/-- Claim C8 counterexample: mapping the parameter name to the empty string
gives a descriptor whose `value` is the empty string although the name is
present in the mapping, refuting "empty string exactly when the name is
absent". -/
theorem claim8_counterexample :
    (stats "/users/:id" (Args.obj [("id", "")])).params =
      [ParamStat.mk ":id" "" false true] ∧
    (List.lookup "id" [("id", "")]).isSome = true := by decide

/-- Claim C8 (amended).  Every descriptor's `value` is the argument resolved
by the parameter's name without its sigil when present (hence also the empty
string when the stored value is empty), and the empty string when the name is
absent; in particular `stats('/users/:id', {})` yields one descriptor with
value `''`, `optional` false, `required` true, and one missing required
parameter. -/
theorem claim8_value_resolution :
    (∀ (path : String) (kvs : List (String × String)) (d : ParamStat),
        d ∈ (stats path (Args.obj kvs)).params →
        d.value = (List.lookup (String.mk (d.name.data.drop 1)) kvs).getD "") ∧
    (stats "/users/:id" (Args.obj [])).params = [ParamStat.mk ":id" "" false true] ∧
    (stats "/users/:id" (Args.obj [])).missingRequiredParams.length = 1 := by
  refine ⟨?_, by decide, by decide⟩
  intro path kvs d hd
  simp only [stats, statsL, List.mem_map] at hd
  obtain ⟨param, _, hd⟩ := hd
  subst hd
  simp only [String.data]
  rw [lookup_map_some, jsOrEmpty_map_some]

/-- Claim C8 witness: the value-resolution equation applied at a concrete
pattern, mapping and descriptor. -/
theorem claim8_witness :
    ParamStat.mk ":id" "x" false true ∈
      (stats "/users/:id" (Args.obj [("id", "x")])).params ∧
    (ParamStat.mk ":id" "x" false true).value =
      (List.lookup
        (String.mk ((ParamStat.mk ":id" "x" false true).name.data.drop 1))
        [("id", "x")]).getD "" :=
  ⟨by decide,
   claim8_value_resolution.1 "/users/:id" [("id", "x")] (ParamStat.mk ":id" "x" false true)
     (by decide)⟩

/-- Claim C9.  For a non-empty keyed argument set against a pattern with at
least one named token the injector returns a string (no fault): it reduces to
the positional injection of the values looked up by token name, each encoded
by `encodeURIComponent` inside `replaceArg`; a missed lookup injects the
component-encoding of `undefined`, which is the literal text `undefined`. -/
theorem claim9_keyed_undefined :
    (∀ (path : List Char) (kvs : List (String × String)) (li : Nat),
        kvs ≠ [] → namedMatchList path ≠ [] →
        (parseL path (Args.obj kvs) li).1 =
          some (removeTrailingSlashL (removeParenthesesL
            (injectArgs path ((namedMatchList path).map
              (fun nm => List.lookup (String.mk (nm.drop 1)) kvs)) li).1))) ∧
    encodeURIComponentL (jsString none) = "undefined".data ∧
    (parse "/users/:id" (Args.obj [("name", "bob")]) 0).1 = some "/users/undefined" ∧
    (parse "/users/:id" (Args.obj [("id", "a b")]) 0).1 = some "/users/a%20b" := by
  refine ⟨?_, by decide, by decide, by decide⟩
  intro path kvs li hk hn
  have he : kvs.isEmpty = false := by simpa using hk
  cases hnm : namedMatchList path with
  | nil => exact absurd hnm hn
  | cons n ns => simp [parseL, jsIsEmpty, he, replaceArgsL, hnm]

/-- Claim C9 witness: the keyed-to-positional reduction applied at a concrete
pattern and mapping. -/
theorem claim9_witness :
    ([("id", "a b")] : List (String × String)) ≠ [] ∧
    namedMatchList "/users/:id".data ≠ [] ∧
    (parseL "/users/:id".data (Args.obj [("id", "a b")]) 0).1 =
      some (removeTrailingSlashL (removeParenthesesL
        (injectArgs "/users/:id".data ((namedMatchList "/users/:id".data).map
          (fun nm => List.lookup (String.mk (nm.drop 1)) [("id", "a b")])) 0).1)) :=
  ⟨by decide, by decide,
   claim9_keyed_undefined.1 "/users/:id".data [("id", "a b")] 0 (by decide) (by decide)⟩

/-- Claim C10 counterexample: with the non-empty positional argument set
`["x"]` the pattern `//` parses to `/`, which ends with a slash - only one
trailing slash is stripped. -/
theorem claim10_counterexample :
    jsIsEmpty (Args.arr ["x"]) = false ∧
    (parse "//" (Args.arr ["x"]) 0).1 = some "/" ∧
    ("/" : String).data.getLast? = some '/' := by decide

/-- Claim C10 (amended).  Whenever `parse` returns on a non-empty argument
set, the result contains no parenthesis (including parentheses that arrived
inside injected values, which component-encoding leaves intact); exactly one
trailing slash is stripped, so the result ends with `/` only when the string
after parenthesis removal ended with at least two slashes. -/
theorem claim10_parens_slash :
    (∀ (path : List Char) (args : Args) (li : Nat) (s : List Char),
        jsIsEmpty args = false →
        (parseL path args li).1 = some s →
        ('(' ∉ s ∧ ')' ∉ s) ∧
        (s.getLast? = some '/' →
          ∃ t li2 u, replaceArgsL path args li = (some t, li2) ∧
            (removeParenthesesL t).reverse = '/' :: '/' :: u)) ∧
    (parse "/a/:b" (Args.arr ["(x)"]) 0).1 = some "/a/x" := by
  refine ⟨?_, by decide⟩
  intro path args li s hne hs
  unfold parseL at hs
  rw [hne] at hs
  simp only [Bool.false_eq_true, if_false] at hs
  cases hr : replaceArgsL path args li with
  | mk o li2 =>
    rw [hr] at hs
    cases o with
    | none => simp at hs
    | some t =>
      simp at hs
      subst hs
      constructor
      · exact ⟨fun hmem => (not_paren_removeParenthesesL t).1 (mem_removeTrailingSlashL hmem),
          fun hmem => (not_paren_removeParenthesesL t).2 (mem_removeTrailingSlashL hmem)⟩
      · intro hlast
        unfold removeTrailingSlashL at hlast
        split at hlast
        · next r heq =>
          rw [List.getLast?_reverse] at hlast
          cases r with
          | nil => cases hlast
          | cons c u' =>
            simp at hlast
            subst hlast
            exact ⟨t, li2, u', rfl, heq⟩
        · next hno =>
          exfalso
          have h1 : (removeParenthesesL t).reverse.head? = some '/' := by
            rw [List.head?_reverse]
            exact hlast
          cases hrev : (removeParenthesesL t).reverse with
          | nil => rw [hrev] at h1; cases h1
          | cons c r =>
            rw [hrev] at h1
            simp at h1
            subst h1
            exact hno r hrev

/-- Claim C10 witness: the parenthesis/slash property applied at the concrete
pattern `//` with one positional value. -/
theorem claim10_witness :
    jsIsEmpty (Args.arr ["y"]) = false ∧
    (parseL "//".data (Args.arr ["y"]) 0).1 = some ['/'] ∧
    (('(' ∉ (['/'] : List Char) ∧ ')' ∉ (['/'] : List Char)) ∧
      ((['/'] : List Char).getLast? = some '/' →
        ∃ t li2 u, replaceArgsL "//".data (Args.arr ["y"]) 0 = (some t, li2) ∧
          (removeParenthesesL t).reverse = '/' :: '/' :: u)) :=
  ⟨by decide, by decide,
   claim10_parens_slash.1 "//".data (Args.arr ["y"]) 0 ['/'] (by decide) (by decide)⟩

end UrlComposer
